import Mathlib

/-!
Verification of the PostgreSQL binary NUMERIC decoder/converter of
`pg_replicate` (file `src/pg_replicate/src/conversions/numeric.rs`).

The development shallowly embeds the three pieces of that file:
* `from_sql` — the wire decoder (`impl FromSql for PgNumeric`), reading
  big-endian 16-bit fields from a byte buffer;
* `try_from` — the converter (`impl TryFrom<&PgNumeric> for BigDecimal`),
  building an arbitrary-precision decimal;
* `accepts` — the type predicate routing only NUMERIC columns here.

Machine integers are modelled with `Nat`/`Int` (`u8` as `Fin 256`,
`u16`/`i16` value ranges enforced where the wire guarantees them), and the
fallible Rust functions return `Except`.
-/

/-- A byte of the wire buffer (Rust `u8`). -/
abbrev Byte := Fin 256

/-- A wire buffer (Rust `&[u8]`). -/
abbrev Bytes := List Byte

/-- The error kinds the two fallible functions of `numeric.rs` can produce:
`bufferTooShort` is the `std::io` unexpected-end-of-file error returned by the
`byteorder` reads; `invalidSign raw` is `InvalidNumericSign(raw)`;
`nanUnsupported` is the boxed "NaN is not (yet) supported in BigDecimal"
string error; `intConversion` is `TryFromIntError` from `u64::try_from` /
`i64::try_from`. -/
inductive NumericError where
  | bufferTooShort
  | invalidSign (raw : Nat)
  | nanUnsupported
  | intConversion
deriving DecidableEq, Repr

/-- The `PgNumeric` enum of `numeric.rs`: `weight : i16` is modelled as an
integer, `scale : u16` as a natural number, and `digits : Vec<i16>` as a list
of integers. -/
inductive PgNumeric where
  | positive (weight : Int) (scale : Nat) (digits : List Int)
  | negative (weight : Int) (scale : Nat) (digits : List Int)
  | nan
deriving DecidableEq, Repr

/-- Reinterpret a 16-bit unsigned value as a signed `i16` (two's complement),
as `byteorder`'s `read_i16` does with the two bytes it consumed. -/
def i16OfU16 (x : Nat) : Int :=
  if x < 32768 then (x : Int) else (x : Int) - 65536

/-- Model of `byteorder`'s `read_u16::<NetworkEndian>`: consume two bytes, big-endian;
fail with the end-of-buffer error when fewer than two bytes remain. -/
def readU16 : Bytes → Except NumericError (Nat × Bytes)
  | b1 :: b2 :: rest => .ok (b1.val * 256 + b2.val, rest)
  | _ => .error .bufferTooShort

/-- Model of `byteorder`'s `read_i16::<NetworkEndian>`: a big-endian 16-bit read,
reinterpreted as signed. -/
def readI16 (bs : Bytes) : Except NumericError (Int × Bytes) :=
  match readU16 bs with
  | .ok (x, rest) => .ok (i16OfU16 x, rest)
  | .error e => .error e

/-- The digit-reading loop of `from_sql`: read `n` 16-bit digit groups (as
signed values, exactly as the source's `read_i16` loop does). -/
def readDigits : Nat → Bytes → Except NumericError (List Int × Bytes)
  | 0, bs => .ok ([], bs)
  | n + 1, bs =>
    match readI16 bs with
    | .error e => .error e
    | .ok (d, bs1) =>
      match readDigits n bs1 with
      | .error e => .error e
      | .ok (ds, rest) => .ok (d :: ds, rest)

/-- The decoder `PgNumeric::from_sql`: read digit-count, weight, sign and scale (four
big-endian 16-bit header fields), then `digit-count` digit groups, then
dispatch on the sign marker. -/
def from_sql (raw : Bytes) : Except NumericError PgNumeric :=
  match readU16 raw with
  | .error e => .error e
  | .ok (digit_count, bs1) =>
    match readI16 bs1 with
    | .error e => .error e
    | .ok (weight, bs2) =>
      match readU16 bs2 with
      | .error e => .error e
      | .ok (sign, bs3) =>
        match readU16 bs3 with
        | .error e => .error e
        | .ok (scale, bs4) =>
          match readDigits digit_count bs4 with
          | .error e => .error e
          | .ok (digits, _) =>
            if sign = 0 then .ok (.positive weight scale digits)
            else if sign = 16384 then .ok (.negative weight scale digits)
            else if sign = 49152 then .ok .nan
            else .error (.invalidSign sign)

/-- Rust's `BigDecimal` (crate `bigdecimal`): a big integer together with a
signed decimal scale; the denoted value is `intVal * 10 ^ (-scale)`. -/
structure BigDecimal where
  intVal : Int
  scale : Int
deriving DecidableEq, Repr

/-- Model of `bigdecimal`'s `ten_to_the` helper. -/
def tenToThe (n : Nat) : Int := 10 ^ n

/-- Model of `BigDecimal::with_scale`: change the scale, multiplying the integer part
when the scale grows and dividing it (big-integer division, truncating toward
zero) when the scale shrinks. -/
def BigDecimal.withScale (d : BigDecimal) (newScale : Int) : BigDecimal :=
  if d.intVal = 0 then ⟨0, newScale⟩
  else if d.scale < newScale then
    ⟨d.intVal * tenToThe (newScale - d.scale).toNat, newScale⟩
  else if newScale < d.scale then
    ⟨d.intVal.tdiv (tenToThe (d.scale - newScale).toNat), newScale⟩
  else d

/-- The exact rational value a `BigDecimal` denotes. -/
def BigDecimal.toRat (d : BigDecimal) : ℚ :=
  (d.intVal : ℚ) * (10 : ℚ) ^ (-d.scale)

/-- Model of `u64::try_from` on an `i16` digit: fails exactly on negative input. -/
def u64TryFromI16 (d : Int) : Except NumericError Nat :=
  if d < 0 then .error .intConversion else .ok d.toNat

/-- Model of `i64::try_from` on `digits.len()` (a `usize`): fails above `i64::MAX`. -/
def i64TryFromUsize (n : Nat) : Except NumericError Int :=
  if n < 2 ^ 63 then .ok (n : Int) else .error .intConversion

/-- The accumulation loop of the converter: `result = result * 10_000 +
u64::try_from(digit)?`, left to right over the digit groups. -/
def accumDigits : Nat → List Int → Except NumericError Nat
  | acc, [] => .ok acc
  | acc, d :: ds =>
    match u64TryFromI16 d with
    | .error e => .error e
    | .ok u => accumDigits (acc * 10000 + u) ds

/-- The shared tail of the converter after sign selection (`sign` is `1` for
`Sign::Plus`, `-1` for `Sign::Minus`): convert the length, accumulate the
digit groups in base 10000, compute `correction_exp = 4 * (weight - count + 1)`,
build `BigDecimal::new(sign * result, -correction_exp)` and attach the
declared scale with `with_scale`. -/
def convertSigned (sign weight : Int) (scale : Nat) (digits : List Int) :
    Except NumericError BigDecimal :=
  match i64TryFromUsize digits.length with
  | .error e => .error e
  | .ok count =>
    match accumDigits 0 digits with
    | .error e => .error e
    | .ok result =>
      let correctionExp := 4 * (weight - count + 1)
      .ok ((BigDecimal.mk (sign * (result : Int)) (-correctionExp)).withScale
        (scale : Int))

/-- The converter `TryFrom<&PgNumeric> for BigDecimal`: `NaN` is rejected, the signed
variants are converted by the shared accumulation/correction code. -/
def try_from : PgNumeric → Except NumericError BigDecimal
  | .nan => .error .nanUnsupported
  | .positive weight scale digits => convertSigned 1 weight scale digits
  | .negative weight scale digits => convertSigned (-1) weight scale digits

/-- A closed model of `tokio_postgres::types::Type` column identifiers: the
NUMERIC type and a sample of the sibling types other converters handle. -/
inductive PgType where
  | numeric
  | bool
  | int2
  | int4
  | int8
  | float4
  | float8
  | text
  | varchar
  | timestamp
deriving DecidableEq, Repr

/-- The predicate `PgNumeric::accepts`: `true` for `Type::NUMERIC`, `false` otherwise. -/
def accepts : PgType → Bool
  | .numeric => true
  | _ => false

/-- The exact magnitude of a conversion result, when it succeeded. -/
def ratOfResult : Except NumericError BigDecimal → Option ℚ
  | .ok d => some d.toRat
  | .error _ => none

/-- The unsigned integer the digit groups denote in base 10000 (pure version
of the accumulation loop). -/
def digitsValue (ds : List Int) : Nat :=
  ds.foldl (fun acc d => acc * 10000 + d.toNat) 0

/-- The digit-count header a buffer declares (its first big-endian 16-bit
field; `0` when the buffer has fewer than two bytes). -/
def declaredCount : Bytes → Nat
  | b1 :: b2 :: _ => b1.val * 256 + b2.val
  | _ => 0

/-! ### Reader lemmas -/

theorem readI16_ok_range {bs : Bytes} {d : Int} {rest : Bytes}
    (h : readI16 bs = .ok (d, rest)) : -32768 ≤ d ∧ d < 32768 := by
  match bs with
  | [] => simp [readI16, readU16] at h
  | [b] => simp [readI16, readU16] at h
  | b1 :: b2 :: bs' =>
    simp only [readI16, readU16, Except.ok.injEq, Prod.mk.injEq] at h
    have h1 := b1.isLt
    have h2 := b2.isLt
    rw [← h.1]
    unfold i16OfU16
    split <;> omega

theorem readDigits_ok_length {n : Nat} {bs : Bytes} {ds : List Int} {rest : Bytes}
    (h : readDigits n bs = .ok (ds, rest)) : ds.length = n := by
  induction n generalizing bs ds rest with
  | zero =>
    simp only [readDigits, Except.ok.injEq, Prod.mk.injEq] at h
    rw [← h.1]
    rfl
  | succ n ih =>
    unfold readDigits at h
    cases hI : readI16 bs with
    | error e => rw [hI] at h; exact absurd h (by simp)
    | ok p =>
      obtain ⟨d0, bs1⟩ := p
      rw [hI] at h
      dsimp only at h
      cases hrd : readDigits n bs1 with
      | error e => rw [hrd] at h; exact absurd h (by simp)
      | ok q =>
        obtain ⟨ds1, rest1⟩ := q
        rw [hrd] at h
        dsimp only at h
        simp only [Except.ok.injEq, Prod.mk.injEq] at h
        rw [← h.1, List.length_cons, ih hrd]

theorem readDigits_ok_range {n : Nat} {bs : Bytes} {ds : List Int} {rest : Bytes}
    (h : readDigits n bs = .ok (ds, rest)) : ∀ d ∈ ds, -32768 ≤ d ∧ d < 32768 := by
  induction n generalizing bs ds rest with
  | zero =>
    simp only [readDigits, Except.ok.injEq, Prod.mk.injEq] at h
    rw [← h.1]
    intro d hd
    exact absurd hd (List.not_mem_nil d)
  | succ n ih =>
    unfold readDigits at h
    cases hI : readI16 bs with
    | error e => rw [hI] at h; exact absurd h (by simp)
    | ok p =>
      obtain ⟨d0, bs1⟩ := p
      rw [hI] at h
      dsimp only at h
      cases hrd : readDigits n bs1 with
      | error e => rw [hrd] at h; exact absurd h (by simp)
      | ok q =>
        obtain ⟨ds1, rest1⟩ := q
        rw [hrd] at h
        dsimp only at h
        simp only [Except.ok.injEq, Prod.mk.injEq] at h
        rw [← h.1]
        intro d hd
        rcases List.mem_cons.mp hd with hd | hd
        · subst hd
          exact readI16_ok_range hI
        · exact ih hrd d hd

theorem readDigits_ok_of_le {n : Nat} {bs : Bytes} (h : 2 * n ≤ bs.length) :
    ∃ ds rest, readDigits n bs = .ok (ds, rest) ∧ ds.length = n ∧
      rest.length = bs.length - 2 * n := by
  induction n generalizing bs with
  | zero => exact ⟨[], bs, rfl, rfl, by omega⟩
  | succ n ih =>
    match bs with
    | [] => simp at h
    | [b] => simp at h; omega
    | b1 :: b2 :: bs' =>
      have hlen : 2 * n ≤ bs'.length := by
        simp only [List.length_cons] at h
        omega
      obtain ⟨ds, rest, hds, hl, hr⟩ := ih hlen
      refine ⟨i16OfU16 (b1.val * 256 + b2.val) :: ds, rest, ?_, by simp [hl], ?_⟩
      · simp [readDigits, readI16, readU16, hds]
      · simp only [List.length_cons]
        omega

theorem readDigits_err_of_lt {n : Nat} {bs : Bytes} (h : bs.length < 2 * n) :
    readDigits n bs = .error .bufferTooShort := by
  induction n generalizing bs with
  | zero => exact absurd h (by omega)
  | succ n ih =>
    match bs with
    | [] => simp [readDigits, readI16, readU16]
    | [b] => simp [readDigits, readI16, readU16]
    | b1 :: b2 :: bs' =>
      have : bs'.length < 2 * n := by
        simp only [List.length_cons] at h
        omega
      simp [readDigits, readI16, readU16, ih this]

/-! ### Converter lemmas -/

theorem accumDigits_ok {ds : List Int} (hds : ∀ d ∈ ds, 0 ≤ d) (acc : Nat) :
    accumDigits acc ds = .ok (ds.foldl (fun a d => a * 10000 + d.toNat) acc) := by
  induction ds generalizing acc with
  | nil => rfl
  | cons d ds ih =>
    have hd : ¬ d < 0 := not_lt.mpr (hds d (List.mem_cons_self d ds))
    simp only [accumDigits, u64TryFromI16, if_neg hd, List.foldl_cons]
    exact ih (fun x hx => hds x (List.mem_cons_of_mem d hx)) _

theorem accumDigits_err {ds : List Int} (hneg : ∃ d ∈ ds, d < 0) (acc : Nat) :
    accumDigits acc ds = .error .intConversion := by
  induction ds generalizing acc with
  | nil => simp at hneg
  | cons d ds ih =>
    by_cases hd : d < 0
    · simp only [accumDigits, u64TryFromI16, if_pos hd]
    · simp only [accumDigits, u64TryFromI16, if_neg hd]
      obtain ⟨x, hx, hxneg⟩ := hneg
      rcases List.mem_cons.mp hx with hx | hx
      · exact absurd (hx ▸ hxneg) hd
      · exact ih ⟨x, hx, hxneg⟩ _

theorem convertSigned_eq_ok (sgn w : Int) (sc : Nat) {ds : List Int}
    (hds : ∀ d ∈ ds, 0 ≤ d) (hlen : ds.length < 2 ^ 63) :
    convertSigned sgn w sc ds =
      .ok ((BigDecimal.mk (sgn * (digitsValue ds : Int))
        (-(4 * (w - (ds.length : Int) + 1)))).withScale (sc : Int)) := by
  simp only [convertSigned, i64TryFromUsize, if_pos hlen, accumDigits_ok hds 0, digitsValue]

theorem BigDecimal.withScale_toRat {d : BigDecimal} {ns : Int}
    (h : tenToThe (d.scale - ns).toNat ∣ d.intVal) :
    (d.withScale ns).toRat = d.toRat := by
  obtain ⟨iv, s⟩ := d
  simp only [tenToThe] at h
  by_cases h0 : iv = 0
  · subst h0
    simp only [BigDecimal.withScale, if_pos rfl]
    simp [BigDecimal.toRat]
  · simp only [BigDecimal.withScale, if_neg h0]
    rcases lt_trichotomy s ns with hlt | heq | hgt
    · rw [if_pos hlt]
      simp only [BigDecimal.toRat, tenToThe]
      push_cast
      rw [← zpow_natCast (10 : ℚ) (ns - s).toNat,
        Int.toNat_of_nonneg (by omega : (0 : Int) ≤ ns - s), mul_assoc,
        ← zpow_add₀ (by norm_num : (10 : ℚ) ≠ 0)]
      have he : ns - s + -ns = -s := by ring
      rw [he]
    · rw [if_neg (by omega), if_neg (by omega)]
    · rw [if_neg (by omega), if_pos hgt]
      obtain ⟨m, hm⟩ := h
      have hk : ((s - ns).toNat : Int) = s - ns :=
        Int.toNat_of_nonneg (by omega)
      have hdiv : iv.tdiv (tenToThe (s - ns).toNat) = m := by
        rw [hm, tenToThe]
        exact Int.mul_tdiv_cancel_left m (by positivity)
      rw [hdiv]
      simp only [BigDecimal.toRat]
      rw [hm]
      push_cast
      rw [← zpow_natCast (10 : ℚ) (s - ns).toNat, hk, mul_comm ((10:ℚ) ^ (s - ns)),
        mul_assoc, ← zpow_add₀ (by norm_num : (10 : ℚ) ≠ 0)]
      have he : s - ns + -s = -ns := by ring
      rw [he]

theorem convertSigned_value (sgn w : Int) (sc : Nat) {ds : List Int}
    (hds : ∀ d ∈ ds, 0 ≤ d) (hlen : ds.length < 2 ^ 63)
    (hdvd : tenToThe (4 * ((ds.length : Int) - w - 1) - sc).toNat ∣
      (digitsValue ds : Int)) :
    ratOfResult (convertSigned sgn w sc ds) =
      some ((sgn : ℚ) * (digitsValue ds : ℚ) *
        (10 : ℚ) ^ (4 * (w - (ds.length : Int) + 1))) := by
  rw [convertSigned_eq_ok sgn w sc hds hlen]
  simp only [ratOfResult]
  have hsc : (-(4 * (w - (ds.length : Int) + 1)) - sc) =
      (4 * ((ds.length : Int) - w - 1) - sc) := by ring
  rw [BigDecimal.withScale_toRat (by simpa [hsc] using hdvd.mul_left sgn)]
  simp only [BigDecimal.toRat, neg_neg]
  push_cast
  ring_nf

/-! ### Decoder shape lemmas -/

theorem from_sql_header (c1 c2 w1 w2 s1 s2 sc1 sc2 : Byte) (rest : Bytes)
    (hlen : 2 * (c1.val * 256 + c2.val) ≤ rest.length) :
    ∃ ds : List Int, ds.length = c1.val * 256 + c2.val ∧
      from_sql (c1 :: c2 :: w1 :: w2 :: s1 :: s2 :: sc1 :: sc2 :: rest) =
        (if s1.val * 256 + s2.val = 0 then
          .ok (.positive (i16OfU16 (w1.val * 256 + w2.val))
            (sc1.val * 256 + sc2.val) ds)
        else if s1.val * 256 + s2.val = 16384 then
          .ok (.negative (i16OfU16 (w1.val * 256 + w2.val))
            (sc1.val * 256 + sc2.val) ds)
        else if s1.val * 256 + s2.val = 49152 then .ok .nan
        else .error (.invalidSign (s1.val * 256 + s2.val))) := by
  obtain ⟨ds, rest', hds, hl, -⟩ := readDigits_ok_of_le hlen
  refine ⟨ds, hl, ?_⟩
  simp only [from_sql, readU16, readI16, hds]

theorem from_sql_digits_err (c1 c2 w1 w2 s1 s2 sc1 sc2 : Byte) (rest : Bytes)
    (hlen : rest.length < 2 * (c1.val * 256 + c2.val)) :
    from_sql (c1 :: c2 :: w1 :: w2 :: s1 :: s2 :: sc1 :: sc2 :: rest) =
      .error .bufferTooShort := by
  simp only [from_sql, readU16, readI16, readDigits_err_of_lt hlen]

theorem from_sql_ok_inv {raw : Bytes} {num : PgNumeric} (h : from_sql raw = .ok num) :
    ∃ digit_count bs1 weight bs2 sign bs3 scale bs4 digits rest,
      readU16 raw = .ok (digit_count, bs1) ∧
      readI16 bs1 = .ok (weight, bs2) ∧
      readU16 bs2 = .ok (sign, bs3) ∧
      readU16 bs3 = .ok (scale, bs4) ∧
      readDigits digit_count bs4 = .ok (digits, rest) ∧
      (if sign = 0 then Except.ok (PgNumeric.positive weight scale digits)
       else if sign = 16384 then Except.ok (PgNumeric.negative weight scale digits)
       else if sign = 49152 then Except.ok PgNumeric.nan
       else Except.error (NumericError.invalidSign sign)) = Except.ok num := by
  unfold from_sql at h
  cases h1 : readU16 raw with
  | error e => rw [h1] at h; exact absurd h (by simp)
  | ok p1 =>
    obtain ⟨digit_count, bs1⟩ := p1
    rw [h1] at h
    dsimp only at h
    cases h2 : readI16 bs1 with
    | error e => rw [h2] at h; exact absurd h (by simp)
    | ok p2 =>
      obtain ⟨weight, bs2⟩ := p2
      rw [h2] at h
      dsimp only at h
      cases h3 : readU16 bs2 with
      | error e => rw [h3] at h; exact absurd h (by simp)
      | ok p3 =>
        obtain ⟨sign, bs3⟩ := p3
        rw [h3] at h
        dsimp only at h
        cases h4 : readU16 bs3 with
        | error e => rw [h4] at h; exact absurd h (by simp)
        | ok p4 =>
          obtain ⟨scale, bs4⟩ := p4
          rw [h4] at h
          dsimp only at h
          cases h5 : readDigits digit_count bs4 with
          | error e => rw [h5] at h; exact absurd h (by simp)
          | ok p5 =>
            obtain ⟨digits, rest⟩ := p5
            rw [h5] at h
            dsimp only at h
            exact ⟨digit_count, bs1, weight, bs2, sign, bs3, scale, bs4,
              digits, rest, rfl, h2, h3, h4, h5, h⟩

theorem from_sql_ok_digits {raw : Bytes} {w : Int} {s : Nat} {ds : List Int}
    (h : from_sql raw = .ok (.positive w s ds) ∨
      from_sql raw = .ok (.negative w s ds)) :
    (∃ rest, readU16 raw = .ok (ds.length, rest)) ∧
      ∀ d ∈ ds, -32768 ≤ d ∧ d < 32768 := by
  have h' : ∃ num, from_sql raw = .ok num ∧
      (num = PgNumeric.positive w s ds ∨ num = PgNumeric.negative w s ds) := by
    rcases h with h | h
    · exact ⟨_, h, Or.inl rfl⟩
    · exact ⟨_, h, Or.inr rfl⟩
  obtain ⟨num, hnum, hshape⟩ := h'
  obtain ⟨dc, bs1, weight, bs2, sign, bs3, scale, bs4, digits, rest,
    h1, h2, h3, h4, h5, h6⟩ := from_sql_ok_inv hnum
  have hdig : digits = ds := by
    by_cases hs0 : sign = 0
    · rw [if_pos hs0] at h6
      rcases hshape with hsh | hsh <;> rw [hsh] at h6 <;>
        simp only [Except.ok.injEq, PgNumeric.positive.injEq] at h6
      · exact h6.2.2
      · exact absurd h6 (by simp)
    · rw [if_neg hs0] at h6
      by_cases hs1 : sign = 16384
      · rw [if_pos hs1] at h6
        rcases hshape with hsh | hsh <;> rw [hsh] at h6 <;>
          simp only [Except.ok.injEq, PgNumeric.negative.injEq] at h6
        · exact absurd h6 (by simp)
        · exact h6.2.2
      · rw [if_neg hs1] at h6
        by_cases hs2 : sign = 49152
        · rw [if_pos hs2] at h6
          rcases hshape with hsh | hsh <;> rw [hsh] at h6 <;>
            exact absurd h6 (by simp)
        · rw [if_neg hs2] at h6
          exact absurd h6 (by simp)
  subst hdig
  refine ⟨⟨bs1, ?_⟩, readDigits_ok_range h5⟩
  rw [readDigits_ok_length h5]
  exact h1

theorem convertSigned_nil (sgn w : Int) (sc : Nat) :
    ratOfResult (convertSigned sgn w sc []) = some 0 := by
  rw [convertSigned_eq_ok sgn w sc (by simp) (by norm_num)]
  simp [ratOfResult, BigDecimal.withScale, digitsValue, BigDecimal.toRat]

theorem convertSigned_err_of_neg {ds : List Int} (hneg : ∃ d ∈ ds, d < 0)
    (sgn w : Int) (sc : Nat) :
    convertSigned sgn w sc ds = .error .intConversion := by
  unfold convertSigned
  cases h64 : i64TryFromUsize ds.length with
  | error e =>
    have he : e = NumericError.intConversion := by
      unfold i64TryFromUsize at h64
      split at h64
      · exact absurd h64 (by simp)
      · simp only [Except.error.injEq] at h64
        exact h64.symm
    dsimp only
    rw [he]
  | ok count =>
    dsimp only
    rw [accumDigits_err hneg 0]

/-! ### Claim theorems -/

/-- C8: the type-applicability predicate `accepts` returns `true` if and only
if the declared column type identifier is the NUMERIC database type; for every
other type identifier it returns `false`. -/
theorem accepts_iff_numeric (ty : PgType) :
    accepts ty = true ↔ ty = PgType.numeric := by
  cases ty <;> simp [accepts]

/-- C6: converting the `NaN` variant always fails with the unsupported-value
error, and any fully framed buffer whose sign field is `0xC000`, decoded and
then converted, ends in that same failure regardless of its other fields. -/
theorem nan_conversion_always_fails :
    try_from PgNumeric.nan = .error .nanUnsupported ∧
    ∀ (c1 c2 w1 w2 s1 s2 sc1 sc2 : Byte) (rest : Bytes),
      s1.val * 256 + s2.val = 49152 →
      2 * (c1.val * 256 + c2.val) ≤ rest.length →
      (from_sql (c1 :: c2 :: w1 :: w2 :: s1 :: s2 :: sc1 :: sc2 :: rest)).bind
        try_from = .error .nanUnsupported := by
  refine ⟨rfl, ?_⟩
  intro c1 c2 w1 w2 s1 s2 sc1 sc2 rest hsign hlen
  obtain ⟨ds, -, heq⟩ := from_sql_header c1 c2 w1 w2 s1 s2 sc1 sc2 rest hlen
  rw [heq, hsign]
  rw [if_neg (by norm_num), if_neg (by norm_num), if_pos rfl]
  rfl

theorem nan_conversion_always_fails_witness :
    try_from PgNumeric.nan = .error .nanUnsupported ∧
    (from_sql ([0, 0, 0, 0, 192, 0, 0, 0] : Bytes)).bind try_from =
      .error .nanUnsupported :=
  ⟨nan_conversion_always_fails.1,
    nan_conversion_always_fails.2 0 0 0 0 192 0 0 0 [] (by decide) (by decide)⟩

/-- C7: for every `Positive` or `Negative` `PgNumeric` whose digit sequence is
empty, conversion succeeds and yields the exact decimal value zero, for every
value of `weight` and `scale`. -/
theorem empty_digits_is_exact_zero (w : Int) (sc : Nat) :
    ratOfResult (try_from (.positive w sc [])) = some 0 ∧
    ratOfResult (try_from (.negative w sc [])) = some 0 :=
  ⟨convertSigned_nil 1 w sc, convertSigned_nil (-1) w sc⟩

/-- C4: for every buffer whose header and digit groups are fully readable, the
decoder dispatches on the sign field: `0` produces `Positive`, `0x4000`
produces `Negative`, `0xC000` produces `NaN`, and any other sign value fails
with the invalid-sign error carrying the offending raw 16-bit value. -/
theorem sign_marker_dispatch (c1 c2 w1 w2 s1 s2 sc1 sc2 : Byte) (rest : Bytes)
    (hlen : 2 * (c1.val * 256 + c2.val) ≤ rest.length) :
    (s1.val * 256 + s2.val = 0 → ∃ ds,
      from_sql (c1 :: c2 :: w1 :: w2 :: s1 :: s2 :: sc1 :: sc2 :: rest) =
        .ok (.positive (i16OfU16 (w1.val * 256 + w2.val))
          (sc1.val * 256 + sc2.val) ds)) ∧
    (s1.val * 256 + s2.val = 16384 → ∃ ds,
      from_sql (c1 :: c2 :: w1 :: w2 :: s1 :: s2 :: sc1 :: sc2 :: rest) =
        .ok (.negative (i16OfU16 (w1.val * 256 + w2.val))
          (sc1.val * 256 + sc2.val) ds)) ∧
    (s1.val * 256 + s2.val = 49152 →
      from_sql (c1 :: c2 :: w1 :: w2 :: s1 :: s2 :: sc1 :: sc2 :: rest) =
        .ok .nan) ∧
    (s1.val * 256 + s2.val ≠ 0 → s1.val * 256 + s2.val ≠ 16384 →
      s1.val * 256 + s2.val ≠ 49152 →
      from_sql (c1 :: c2 :: w1 :: w2 :: s1 :: s2 :: sc1 :: sc2 :: rest) =
        .error (.invalidSign (s1.val * 256 + s2.val))) := by
  obtain ⟨ds, -, heq⟩ := from_sql_header c1 c2 w1 w2 s1 s2 sc1 sc2 rest hlen
  refine ⟨?_, ?_, ?_, ?_⟩
  · intro h0
    exact ⟨ds, by rw [heq, if_pos h0]⟩
  · intro h1
    refine ⟨ds, ?_⟩
    rw [heq, if_neg (by omega), if_pos h1]
  · intro h2
    rw [heq, if_neg (by omega), if_neg (by omega), if_pos h2]
  · intro h0 h1 h2
    rw [heq, if_neg h0, if_neg h1, if_neg h2]

theorem sign_marker_dispatch_witness :
    from_sql ([0, 0, 0, 0, 128, 0, 0, 0] : Bytes) =
      .error (.invalidSign 32768) :=
  (sign_marker_dispatch 0 0 0 0 128 0 0 0 [] (by decide)).2.2.2
    (by decide) (by decide) (by decide)

/-- C5: every buffer shorter than the minimal 8-byte header, or whose declared
digit-count requires more 16-bit digit groups than the remaining bytes
provide, fails to decode with the end-of-buffer error. -/
theorem short_buffer_fails : ∀ raw : Bytes,
    raw.length < 8 + 2 * declaredCount raw →
    from_sql raw = .error .bufferTooShort
  | [], _ => rfl
  | [_], _ => rfl
  | [_, _], _ => rfl
  | [_, _, _], _ => rfl
  | [_, _, _, _], _ => rfl
  | [_, _, _, _, _], _ => rfl
  | [_, _, _, _, _, _], _ => rfl
  | [_, _, _, _, _, _, _], _ => rfl
  | c1 :: c2 :: w1 :: w2 :: s1 :: s2 :: p1 :: p2 :: rest, h =>
    from_sql_digits_err c1 c2 w1 w2 s1 s2 p1 p2 rest (by
      simp only [declaredCount, List.length_cons] at h
      omega)

theorem short_buffer_fails_witness :
    from_sql ([0, 1, 0, 0, 0, 0, 0, 0] : Bytes) = .error .bufferTooShort :=
  short_buffer_fails [0, 1, 0, 0, 0, 0, 0, 0] (by decide)

/-- C9: the decoder reads the whole header and all declared digit groups
before inspecting the sign marker, so whenever the declared digit-count
exceeds the remaining bytes, decoding fails with the end-of-buffer error for
every value of the sign bytes — including `0xC000` and unrecognized markers. -/
theorem eof_takes_precedence_over_sign (c1 c2 w1 w2 s1 s2 sc1 sc2 : Byte)
    (rest : Bytes) (h : rest.length < 2 * (c1.val * 256 + c2.val)) :
    from_sql (c1 :: c2 :: w1 :: w2 :: s1 :: s2 :: sc1 :: sc2 :: rest) =
      .error .bufferTooShort :=
  from_sql_digits_err c1 c2 w1 w2 s1 s2 sc1 sc2 rest h

theorem eof_takes_precedence_over_sign_witness :
    from_sql ([0, 2, 0, 0, 192, 0, 0, 0, 1, 2] : Bytes) =
      .error .bufferTooShort :=
  eof_takes_precedence_over_sign 0 2 0 0 192 0 0 0 [1, 2] (by decide)

/-- C10: the decoder stores digit groups as raw signed 16-bit values without
range validation — a wire group `0x8000` decodes to the negative digit
`-32768` — and converting a signed `PgNumeric` containing any negative digit
returns the integer-conversion error, an error kind distinct from the three
spec-level failure kinds. -/
theorem unvalidated_digit_conversion_error :
    from_sql ([0, 1, 0, 0, 0, 0, 0, 0, 128, 0] : Bytes) =
      .ok (.positive 0 0 [-32768]) ∧
    (∀ (w : Int) (sc : Nat) (ds : List Int), (∃ d ∈ ds, d < 0) →
      try_from (.positive w sc ds) = .error .intConversion ∧
      try_from (.negative w sc ds) = .error .intConversion) ∧
    (∀ raw : Nat, NumericError.intConversion ≠ NumericError.bufferTooShort ∧
      NumericError.intConversion ≠ NumericError.invalidSign raw ∧
      NumericError.intConversion ≠ NumericError.nanUnsupported) := by
  refine ⟨rfl, ?_, fun raw => ⟨by simp, by simp, by simp⟩⟩
  intro w sc ds hneg
  exact ⟨convertSigned_err_of_neg hneg 1 w sc,
    convertSigned_err_of_neg hneg (-1) w sc⟩

theorem unvalidated_digit_conversion_error_witness :
    try_from (.positive 0 0 [-32768]) = .error .intConversion ∧
    try_from (.negative 0 0 [-32768]) = .error .intConversion :=
  unvalidated_digit_conversion_error.2.1 0 0 [-32768]
    ⟨-32768, by decide, by decide⟩

/-- C2 counterexample: a wire digit group with value 10000 (bytes `0x27 0x10`)
is accepted by the decoder and stored as-is, so a successful decode does not
guarantee every digit lies in `[0, 9999]`. -/
theorem decode_keeps_out_of_range_digit :
    from_sql ([0, 1, 0, 0, 0, 0, 0, 0, 39, 16] : Bytes) =
      .ok (.positive 0 0 [10000]) ∧ ¬ ((10000 : Int) ≤ 9999) :=
  ⟨rfl, by norm_num⟩

/-- C2 (amended): every `PgNumeric` produced by a successful decode has a
digit list whose length equals the header-declared digit-count exactly, and
whose elements are raw signed 16-bit values — in `[-32768, 32767]`, not
validated to `[0, 9999]`. -/
theorem decoded_digits_invariant {raw : Bytes} {w : Int} {s : Nat}
    {ds : List Int}
    (h : from_sql raw = .ok (.positive w s ds) ∨
      from_sql raw = .ok (.negative w s ds)) :
    (∃ rest, readU16 raw = .ok (ds.length, rest)) ∧
      ∀ d ∈ ds, -32768 ≤ d ∧ d < 32768 :=
  from_sql_ok_digits h

theorem decoded_digits_invariant_witness :
    (∃ rest, readU16 ([0, 1, 0, 0, 0, 0, 0, 0, 0, 5] : Bytes) =
      .ok (([5] : List Int).length, rest)) ∧
      ∀ d ∈ ([5] : List Int), -32768 ≤ d ∧ d < 32768 :=
  decoded_digits_invariant
    (Or.inl (show from_sql ([0, 1, 0, 0, 0, 0, 0, 0, 0, 5] : Bytes) =
      .ok (.positive 0 0 [5]) from rfl))

/-- C1 counterexample: the converted magnitude is not independent of `scale`.
Decoding digits `[1234]` at weight `-1` gives the exact value `0.1234` when
`scale = 4`, but `with_scale` truncates it to `0.12` when `scale = 2`. -/
theorem scale_change_truncates_value :
    ratOfResult (try_from (.positive (-1) 4 [1234])) ≠
      ratOfResult (try_from (.positive (-1) 2 [1234])) := by
  have h1 : try_from (PgNumeric.positive (-1) 4 [1234]) = .ok ⟨1234, 4⟩ := rfl
  have h2 : try_from (PgNumeric.positive (-1) 2 [1234]) = .ok ⟨12, 2⟩ := rfl
  rw [h1, h2]
  simp only [ratOfResult, BigDecimal.toRat, Option.some_inj]
  norm_num

/-- C1 (amended): the converted magnitude is a function of digits, weight and
sign only as long as the declared scale does not undercut the implied
fractional precision: for any two scales that are both at least
`4 * (count - weight - 1)`, conversion yields the same exact value; a smaller
scale truncates the value by integer division. -/
theorem scale_is_metadata_above_threshold (w : Int) (s1 s2 : Nat)
    (ds : List Int) (hds : ∀ d ∈ ds, 0 ≤ d) (hlen : ds.length < 2 ^ 63)
    (h1 : 4 * ((ds.length : Int) - w - 1) ≤ (s1 : Int))
    (h2 : 4 * ((ds.length : Int) - w - 1) ≤ (s2 : Int)) :
    ratOfResult (try_from (.positive w s1 ds)) =
      ratOfResult (try_from (.positive w s2 ds)) ∧
    ratOfResult (try_from (.negative w s1 ds)) =
      ratOfResult (try_from (.negative w s2 ds)) := by
  have hd1 : tenToThe (4 * ((ds.length : Int) - w - 1) - s1).toNat ∣
      (digitsValue ds : Int) := by
    rw [(by omega : (4 * ((ds.length : Int) - w - 1) - s1).toNat = 0)]
    simp [tenToThe]
  have hd2 : tenToThe (4 * ((ds.length : Int) - w - 1) - s2).toNat ∣
      (digitsValue ds : Int) := by
    rw [(by omega : (4 * ((ds.length : Int) - w - 1) - s2).toNat = 0)]
    simp [tenToThe]
  constructor
  · show ratOfResult (convertSigned 1 w s1 ds) =
      ratOfResult (convertSigned 1 w s2 ds)
    rw [convertSigned_value 1 w s1 hds hlen hd1,
      convertSigned_value 1 w s2 hds hlen hd2]
  · show ratOfResult (convertSigned (-1) w s1 ds) =
      ratOfResult (convertSigned (-1) w s2 ds)
    rw [convertSigned_value (-1) w s1 hds hlen hd1,
      convertSigned_value (-1) w s2 hds hlen hd2]

theorem scale_is_metadata_above_threshold_witness :
    ratOfResult (try_from (.positive 0 0 [3])) =
      ratOfResult (try_from (.positive 0 5 [3])) ∧
    ratOfResult (try_from (.negative 0 0 [3])) =
      ratOfResult (try_from (.negative 0 5 [3])) :=
  scale_is_metadata_above_threshold 0 0 5 [3] (by decide) (by norm_num)
    (by norm_num) (by norm_num)

/-- C3 counterexample: conversion does not always equal
`sign * magnitude * 10 ^ (4 * (weight - count + 1))` — at digits `[1234]`,
weight `-1`, scale `0`, the code yields `0` while the formula gives `0.1234`. -/
theorem conversion_formula_fails_below_scale :
    ratOfResult (try_from (.positive (-1) 0 [1234])) = some 0 ∧
    (digitsValue [1234] : ℚ) * (10 : ℚ) ^
      (4 * ((-1 : Int) - (([1234] : List Int).length : Int) + 1)) ≠ 0 := by
  constructor
  · have h1 : try_from (PgNumeric.positive (-1) 0 [1234]) = .ok ⟨0, 0⟩ := rfl
    rw [h1]
    simp only [ratOfResult, BigDecimal.toRat]
    norm_num
  · have hv : digitsValue [1234] = 1234 := rfl
    rw [hv]
    positivity

/-- C3 (amended): for every signed `PgNumeric` whose digit groups lie in
`[0, 9999]`, conversion accumulates the digits left to right in base 10000,
applies the sign, and scales by `10 ^ (4 * (weight - count + 1))`, provided
attaching the declared scale is lossless (the scale is at least
`4 * (count - weight - 1)`, or the discarded decimal digits are zeros, as in
the `-12.34` and `0.1234` examples). -/
theorem conversion_formula (w : Int) (sc : Nat) (ds : List Int)
    (hds : ∀ d ∈ ds, 0 ≤ d ∧ d ≤ 9999) (hlen : ds.length < 2 ^ 63)
    (hdvd : (digitsValue ds : Int) %
      tenToThe (4 * ((ds.length : Int) - w - 1) - (sc : Int)).toNat = 0) :
    ratOfResult (try_from (.positive w sc ds)) =
      some ((digitsValue ds : ℚ) *
        (10 : ℚ) ^ (4 * (w - (ds.length : Int) + 1))) ∧
    ratOfResult (try_from (.negative w sc ds)) =
      some (-((digitsValue ds : ℚ) *
        (10 : ℚ) ^ (4 * (w - (ds.length : Int) + 1)))) := by
  have hds' : ∀ d ∈ ds, 0 ≤ d := fun d hd => (hds d hd).1
  have hdvd' := Int.dvd_of_emod_eq_zero hdvd
  constructor
  · show ratOfResult (convertSigned 1 w sc ds) = _
    rw [convertSigned_value 1 w sc hds' hlen hdvd']
    norm_num
  · show ratOfResult (convertSigned (-1) w sc ds) = _
    rw [convertSigned_value (-1) w sc hds' hlen hdvd']
    norm_num

theorem conversion_formula_witness :
    ratOfResult (try_from (.positive 0 2 [12, 3400])) =
      some ((digitsValue [12, 3400] : ℚ) * (10 : ℚ) ^
        (4 * ((0 : Int) - (([12, 3400] : List Int).length : Int) + 1))) ∧
    ratOfResult (try_from (.negative 0 2 [12, 3400])) =
      some (-((digitsValue [12, 3400] : ℚ) * (10 : ℚ) ^
        (4 * ((0 : Int) - (([12, 3400] : List Int).length : Int) + 1)))) :=
  conversion_formula 0 2 [12, 3400] (by decide) (by norm_num) (by decide)
